import Mathlib

/-!
Verification development for the TranscriptAPI repository (src/app.py and
src/transcript.py). Strings are modelled as lists of characters; Python
string operations (split, in, strip, regular expressions used by the code)
are embedded as executable Lean functions below, and each repository
function is translated into a Lean definition over those primitives.
-/

/-- Convenience: the character list of a string literal. -/
def lc (s : String) : List Char := s.data

/-- Python whitespace class backslash-s over the ASCII range: space, tab,
newline, carriage return, form feed, vertical tab. -/
def pyWs (c : Char) : Bool :=
  c = ' ' || c = '\t' || c = '\n' || c = '\r' || c = '\x0c' || c = '\x0b'

/-- Python substring containment test: sub in s. -/
def containsSub (sep : List Char) : List Char → Bool
  | [] => sep.isPrefixOf []
  | c :: rest => sep.isPrefixOf (c :: rest) || containsSub sep rest

/-- The separator occurs in s starting at index i. -/
def occursAt (sep s : List Char) (i : Nat) : Prop :=
  sep.isPrefixOf (s.drop i) = true

instance (sep s : List Char) (i : Nat) : Decidable (occursAt sep s i) := by
  unfold occursAt; infer_instance

/-- One left-to-right scan of Python str.split with a non-empty separator.
The fuel argument bounds the recursion; fuel at least the length of the
scanned list is always sufficient because every step consumes a character. -/
def pySplitGo (sep : List Char) : Nat → List Char → List Char → List (List Char)
  | 0, acc, s => [acc ++ s]
  | fuel + 1, acc, s =>
    match s with
    | [] => [acc]
    | c :: rest =>
      if sep.isPrefixOf (c :: rest) then
        acc :: pySplitGo sep fuel [] ((c :: rest).drop sep.length)
      else
        pySplitGo sep fuel (acc ++ [c]) rest

/-- Python str.split(sep) for a non-empty separator. -/
def pySplit (sep s : List Char) : List (List Char) :=
  pySplitGo sep s.length [] s

/-- Python s.split(sep)[-1]: the suffix after the last occurrence of sep. -/
def afterLast (sep s : List Char) : List Char :=
  (pySplit sep s).getLastD []

/-- Python s.split(sep)[0]: the part before the first occurrence of sep. -/
def beforeFirst (sep s : List Char) : List Char :=
  (pySplit sep s).headD []

/-- Python s.strip(): drop whitespace from both ends. -/
def pyStrip (s : List Char) : List Char :=
  ((s.dropWhile pyWs).reverse.dropWhile pyWs).reverse

/-- Scanner for the substitution of the pattern backslash-s-plus by a single
space: every maximal whitespace run becomes one space. The flag records
whether the scan is inside a run already emitted as a space. -/
def collapseGo (inRun : Bool) : List Char → List Char
  | [] => []
  | c :: rest =>
    if pyWs c then
      if inRun then collapseGo true rest else ' ' :: collapseGo true rest
    else c :: collapseGo false rest

/-- re.sub of one-or-more whitespace by a single space. -/
def collapseWs (s : List Char) : List Char := collapseGo false s

/-- Helper for the bracket-removal pattern: from the characters after an
opening bracket, find the first closing bracket reachable without crossing a
newline and return the suffix after it. -/
def findClose : List Char → Option (List Char)
  | [] => none
  | c :: rest =>
    if c = ']' then some rest
    else if c = '\n' then none
    else findClose rest

/-- Fuelled scanner for re.sub of the non-greedy bracket pattern by the
empty string: each bracketed group up to the nearest closing bracket is
removed. Fuel at least the length of the list is sufficient. -/
def removeBracketsGo : Nat → List Char → List Char
  | 0, s => s
  | fuel + 1, s =>
    match s with
    | [] => []
    | c :: rest =>
      if c = '[' then
        match findClose rest with
        | some rest2 => removeBracketsGo fuel rest2
        | none => c :: removeBracketsGo fuel rest
      else c :: removeBracketsGo fuel rest

/-- re.sub of the non-greedy bracketed-annotation pattern by the empty string. -/
def removeBrackets (s : List Char) : List Char := removeBracketsGo s.length s

/-- The transcript cleaning performed by fetch_transcript: remove bracketed
annotations, collapse whitespace runs to single spaces, strip the ends. -/
def pyClean (s : List Char) : List Char := pyStrip (collapseWs (removeBrackets s))

example : pyClean (lc "Hello [Music] world   foo") = lc "Hello world foo" := by decide
example : containsSub (lc "watch?v=") (lc "https://www.youtube.com/watch?v=dQw4w9WgXcQ") = true := by decide
example : afterLast (lc "watch?v=") (lc "https://www.youtube.com/watch?v=dQw4w9WgXcQ&t=3") = lc "dQw4w9WgXcQ&t=3" := by decide
example : beforeFirst (lc "&") (lc "dQw4w9WgXcQ&t=3") = lc "dQw4w9WgXcQ" := by decide

/-!
A small backtracking matcher with the semantics of the Python re module,
restricted to the constructs used by the fallback pattern of
extract_video_id: literals, single-character classes, concatenation,
left-biased alternation, and greedy star over a character class. A match
invokes its continuation on the remaining suffix; alternatives and shorter
star extents are tried exactly in Python backtracking order.
-/

inductive RE where
  | eps : RE
  | tok (p : Char → Bool) : RE
  | lit (s : List Char) : RE
  | cat (a b : RE) : RE
  | alt (a b : RE) : RE
  | star (p : Char → Bool) : RE

/-- Greedy matching of a starred character class: longest extent first,
backtracking to shorter extents when the continuation fails. -/
def classStar (p : Char → Bool) (k : List Char → Option (List Char)) : List Char → Option (List Char)
  | [] => k []
  | c :: rest =>
    if p c then
      match classStar p k rest with
      | some g => some g
      | none => k (c :: rest)
    else k (c :: rest)

/-- Backtracking matcher in continuation-passing style; the first success in
Python priority order is returned. -/
def matchRE : RE → List Char → (List Char → Option (List Char)) → Option (List Char)
  | .eps, s, k => k s
  | .tok p, s, k =>
    match s with
    | [] => none
    | c :: rest => if p c then k rest else none
  | .lit l, s, k => if l.isPrefixOf s then k (s.drop l.length) else none
  | .cat a b, s, k => matchRE a s fun s2 => matchRE b s2 k
  | .alt a b, s, k =>
    match matchRE a s k with
    | some g => some g
    | none => matchRE b s k

  | .star p, s, k => classStar p k s

/-- One or more repetitions of a character class. -/
def rePlus (p : Char → Bool) : RE := .cat (.tok p) (.star p)

/-- The dot of the re module: any character other than a newline. -/
def notNL (c : Char) : Bool := !(c = '\n')

/-- The capture class of the fallback pattern: any character that is not a
double quote, ampersand, question mark, slash, or whitespace. -/
def idClass (c : Char) : Bool :=
  !(c = '\"' || c = '&' || c = '?' || c = '/' || pyWs c)

/-- The non-capturing part of the fallback pattern of extract_video_id:
either youtube.com/ followed by one of three alternatives, or youtu.be/. -/
def ytPattern : RE :=
  .alt
    (.cat (.lit (lc "youtube.com/"))
      (.alt
        (.cat (rePlus fun c => !(c = '/'))
          (.cat (.lit (lc "/")) (.cat (rePlus notNL) (.lit (lc "/")))))
        (.alt
          (.cat (.alt (.lit (lc "v"))
                      (.cat (.lit (lc "e")) (.alt (.lit (lc "mbed")) .eps)))
            (.lit (lc "/")))
          (.cat (.star notNL)
            (.cat (.tok fun c => c = '?' || c = '&') (.lit (lc "v=")))))))
    (.lit (lc "youtu.be/"))

/-- The capture group: exactly n characters of the class p must follow. -/
def grab (n : Nat) (p : Char → Bool) (s : List Char) : Option (List Char) :=
  let g := s.take n
  if g.length = n && g.all p then some g else none

/-- re.search of the fallback pattern: the pattern is tried at each start
position from the left; the capture group of the first match is returned. -/
def reSearch : List Char → Option (List Char)
  | [] => matchRE ytPattern [] (grab 11 idClass)
  | c :: rest =>
    match matchRE ytPattern (c :: rest) (grab 11 idClass) with
    | some g => some g
    | none => reSearch rest

/-!
The video-id extraction chain shared by src/app.py (lines 47-73) and
src/transcript.py (lines 47-63): four branches tried in order, first match
wins. transcript.py returns the candidate of the matching branch directly;
app.py additionally requires the candidate to be a non-empty string of
exactly 11 characters and returns an absent result otherwise.
-/

def extract_candidate (url : List Char) : Option (List Char) :=
  if containsSub (lc "watch?v=") url then
    some (beforeFirst (lc "&") (afterLast (lc "watch?v=") url))
  else if containsSub (lc "youtu.be/") url then
    some (beforeFirst (lc "?") (afterLast (lc "youtu.be/") url))
  else if containsSub (lc "embed/") url then
    some (beforeFirst (lc "?") (afterLast (lc "embed/") url))
  else reSearch url

/-- extract_video_id of src/transcript.py: the branch result is returned
without any length check. -/
def extract_video_id_t (url : List Char) : Option (List Char) :=
  extract_candidate url

/-- extract_video_id of src/app.py: the candidate is returned only when it
is non-empty and exactly 11 characters long. -/
def extract_video_id (url : List Char) : Option (List Char) :=
  match extract_candidate url with
  | some v => if v ≠ [] ∧ v.length = 11 then some v else none
  | none => none

example : extract_video_id (lc "https://www.youtube.com/watch?v=dQw4w9WgXcQ") = some (lc "dQw4w9WgXcQ") := by decide
example : extract_video_id (lc "https://www.youtube.com/watch?v=dQw4w9WgXcQ&t=30s") = some (lc "dQw4w9WgXcQ") := by decide
example : extract_video_id (lc "https://youtu.be/dQw4w9WgXcQ") = some (lc "dQw4w9WgXcQ") := by decide
example : extract_video_id (lc "https://www.youtube.com/embed/dQw4w9WgXcQ") = some (lc "dQw4w9WgXcQ") := by decide
example : extract_video_id (lc "https://www.youtube.com/v/dQw4w9WgXcQ") = some (lc "dQw4w9WgXcQ") := by decide
example : extract_video_id (lc "not a url") = none := by decide
example : extract_video_id_t (lc "https://www.youtube.com/watch?v=short") = some (lc "short") := by decide
example : extract_video_id (lc "https://www.youtube.com/watch?v=short") = none := by decide
example : reSearch (lc "https://www.youtube.com/v/dQw4w9WgXcQ") = some (lc "dQw4w9WgXcQ") := by decide

/-!
rate_limit_check of src/app.py and src/transcript.py, lines 33-45 in both
files (the two copies are identical). The module state is the list of
admitted timestamps; time.time values are modelled as rational numbers. The
function returns the decision together with the updated state.
-/

def rate_limit_check (maxReq : Nat) (now : ℚ) (stamps : List ℚ) : Bool × List ℚ :=
  let live := stamps.filter fun t => decide (now - t < 60)
  if maxReq ≤ live.length then (false, live)
  else (true, live ++ [now])

/-- Successive calls of rate_limit_check at the given times, starting from
the given state: the list of decisions. -/
def runCalls (maxReq : Nat) : List ℚ → List ℚ → List Bool
  | [], _ => []
  | t :: rest, s =>
    let r := rate_limit_check maxReq t s
    r.1 :: runCalls maxReq rest r.2

/-- Successive calls of rate_limit_check at the given times, starting from
the given state: the final state. -/
def runState (maxReq : Nat) : List ℚ → List ℚ → List ℚ
  | [], s => s
  | t :: rest, s => runState maxReq rest (rate_limit_check maxReq t s).2

example : runCalls 2 [0, 1, 2] [] = [true, true, false] := by
  norm_num [runCalls, rate_limit_check]
example : runCalls 2 [0, 1, 70] [] = [true, true, true] := by
  norm_num [runCalls, rate_limit_check]

/-!
fetch_transcript, src/app.py lines 75-140 (src/transcript.py lines 65-114
differs only in that its third method lacks the explicit empty-enumeration
message). The external transcript provider is modelled by the outcomes of
the three calls the code can make: the default get_transcript call, the
language-restricted call, and list_transcripts together with the outcome of
fetching each enumerated track.
-/

structure Segment where
  text : List Char
deriving DecidableEq

structure Provider where
  method1 : Except (List Char) (List Segment)
  method2 : Except (List Char) (List Segment)
  method3 : Except (List Char) (List (Except (List Char) (List Segment)))

structure TranscriptResult where
  text : List Char
  success : Bool
  errorMessage : List Char
deriving DecidableEq

/-- The single-space join of the text fields of the returned segments. -/
def joinTexts (segs : List Segment) : List Char :=
  List.intercalate (lc " ") (segs.map Segment.text)

/-- Method 3 loop body: iterate the enumerated tracks in order, keep the
join of the first track whose fetch succeeds, break there; a track whose
fetch raises is skipped. An empty result stands for no success. -/
def tryTracks : List (Except (List Char) (List Segment)) → List Char
  | [] => []
  | .error _ :: rest => tryTracks rest
  | .ok segs :: _ => joinTexts segs

/-- The raw transcript text produced by the three-method fallback chain, or
the failure message of the early returns inside the chain. -/
def acquireText (p : Provider) : Except (List Char) (List Char) :=
  match p.method1 with
  | .ok segs => .ok (joinTexts segs)
  | .error e1 =>
    match p.method2 with
    | .ok segs => .ok (joinTexts segs)
    | .error _ =>
      match p.method3 with
      | .error _ => .error (lc "No transcript available: " ++ e1.take 100)
      | .ok tracks =>
        let t := tryTracks tracks
        if t = [] then .error (lc "No accessible transcripts found") else .ok t

/-- fetch_transcript of src/app.py: on a non-empty raw text the cleaned text
is returned as a success; an empty raw text or a chain failure is reported
as a failure with a diagnostic message. -/
def fetch_transcript (p : Provider) : TranscriptResult :=
  match acquireText p with
  | .error e => ⟨[], false, e⟩
  | .ok t =>
    if t = [] then ⟨[], false, lc "No transcript text extracted"⟩
    else ⟨pyClean t, true, []⟩

example : fetch_transcript ⟨.ok [⟨lc "hello"⟩, ⟨lc "world"⟩], .error [], .error []⟩ = ⟨lc "hello world", true, []⟩ := by decide
example : fetch_transcript ⟨.ok [⟨lc "[Music]"⟩], .error [], .error []⟩ = ⟨[], true, []⟩ := by decide
example : fetch_transcript ⟨.error (lc "boom"), .error [], .error []⟩ = ⟨[], false, lc "No transcript available: boom"⟩ := by decide

/-!
The ISO-8601 duration handling inside get_video_metadata, src/app.py lines
187-203 and src/transcript.py lines 154-170 (identical). The anchored
pattern PT with three optional digit groups is embedded directly: each
optional group consumes a maximal digit run only when its terminator letter
follows, which matches the backtracking behaviour because a shorter digit
run would leave a digit, never the terminator, at the scan position.
-/

/-- int() on the digit run captured by a group. -/
def digitsToNat (ds : List Char) : Nat :=
  ds.foldl (fun n c => 10 * n + (c.toNat - '0'.toNat)) 0

/-- One optional group of the duration pattern: digits followed by the
terminator, contributing zero and consuming nothing when absent. -/
def groupParse (term : Char) (s : List Char) : Nat × List Char :=
  let ds := s.takeWhile Char.isDigit
  let rest := s.dropWhile Char.isDigit
  match rest with
  | c :: r => if ds ≠ [] ∧ c = term then (digitsToNat ds, r) else (0, s)
  | [] => (0, s)

/-- re.match of the duration pattern: always succeeds on a string starting
with PT since all three groups are optional. -/
def pyMatchDuration (iso : List Char) : Option (Nat × Nat × Nat) :=
  if (lc "PT").isPrefixOf iso then
    let p1 := groupParse 'H' (iso.drop 2)
    let p2 := groupParse 'M' p1.2
    let p3 := groupParse 'S' p2.2
    some (p1.1, p2.1, p3.1)
  else none

/-- The rendering branch of the duration code: hours first when positive,
else minutes first when positive, else seconds alone. -/
def formatDuration (h m sec : Nat) : List Char :=
  if h > 0 then (Nat.repr h).data ++ lc "h " ++ (Nat.repr m).data ++ lc "m " ++ (Nat.repr sec).data ++ lc "s"
  else if m > 0 then (Nat.repr m).data ++ lc "m " ++ (Nat.repr sec).data ++ lc "s"
  else (Nat.repr sec).data ++ lc "s"

/-- The value of the duration variable for a VideoObject entry whose
duration field holds the given string: the guard requires a non-empty
string starting with PT, and the match is then rendered. -/
def parseDuration (iso : List Char) : List Char :=
  if iso ≠ [] ∧ (lc "PT").isPrefixOf iso then
    match pyMatchDuration iso with
    | some (h, m, sec) => formatDuration h m sec
    | none => lc "Unknown"
  else lc "Unknown"

example : parseDuration (lc "PT1H5M12S") = lc "1h 5m 12s" := by decide
example : parseDuration (lc "PT5M") = lc "5m 0s" := by decide
example : parseDuration (lc "PT42S") = lc "42s" := by decide
example : parseDuration (lc "PTXYZ") = lc "0s" := by decide
example : parseDuration (lc "") = lc "Unknown" := by decide
example : parseDuration (lc "1H2M") = lc "Unknown" := by decide

/-!
get_video_metadata, src/app.py lines 142-226 and src/transcript.py lines
116-191. The HTTP layer is modelled by an Except value: an error stands for
any network or HTTP failure of the GET (including raise_for_status), and a
success carries the parsed page. The page records exactly what the code
reads from the document: the og:title meta tag (present or not, and its
content attribute when present), the title element text, the og:description
meta tag, and the parse outcome of each ld+json script block in document
order. A script whose JSON parse or field access raises is a fail entry;
otherwise the entry carries the type field and duration field reads.
-/

inductive LdScript where
  | fail : LdScript
  | entry (typ : Option (List Char)) (dur : Option (List Char)) : LdScript
deriving DecidableEq

structure Page where
  ogTitle : Option (Option (List Char))
  titleText : Option (List Char)
  ogDescription : Option (Option (List Char))
  ldScripts : List LdScript
deriving DecidableEq

structure VideoMetadata where
  title : List Char
  description : List Char
  duration : List Char
  url : List Char
deriving DecidableEq

/-- The canonical watch-page URL built by the code for a video id. -/
def watchUrl (vid : List Char) : List Char :=
  lc "https://www.youtube.com/watch?v=" ++ vid

/-- Fuelled scanner for Python str.replace of one fixed pattern by the
empty string: every non-overlapping occurrence, scanned left to right, is
removed. Fuel at least the length of the list is sufficient. -/
def replaceDropGo (pat : List Char) : Nat → List Char → List Char
  | 0, s => s
  | fuel + 1, s =>
    match s with
    | [] => []
    | c :: rest =>
      if pat.isPrefixOf (c :: rest) then
        replaceDropGo pat fuel ((c :: rest).drop pat.length)
      else c :: replaceDropGo pat fuel rest

/-- Python s.replace(pat, two-quote empty string) for a non-empty pattern. -/
def replaceDrop (pat s : List Char) : List Char := replaceDropGo pat s.length s

/-- The title computation of src/app.py lines 163-168: og:title content
when the tag is present, else the title element text with every occurrence
of the YouTube suffix removed and the ends stripped, else the default. -/
def computeTitle (page : Page) : List Char :=
  match page.ogTitle with
  | some (some c) => c
  | some none => lc "Unknown Title"
  | none =>
    match page.titleText with
    | some t => pyStrip (replaceDrop (lc " - YouTube") t)
    | none => lc "Unknown Title"

/-- The title computation of src/transcript.py lines 132-135: only the
og:title tag is consulted; without it the default is kept. -/
def computeTitle_t (page : Page) : List Char :=
  match page.ogTitle with
  | some (some c) => c
  | some none => lc "Unknown Title"
  | none => lc "Unknown Title"

/-- The description computation, identical in both files: og:description
content when present, else the empty string. -/
def computeDescription (page : Page) : List Char :=
  match page.ogDescription with
  | some (some c) => c
  | some none => []
  | none => []

/-- The ld+json scan: failing script blocks are skipped; the scan breaks at
the first entry whose type field is VideoObject, whose duration field
(defaulting to the empty string) then determines the result; without such
an entry the default is kept. -/
def findDuration : List LdScript → List Char
  | [] => lc "Unknown"
  | .fail :: rest => findDuration rest
  | .entry typ dur :: rest =>
    if typ = some (lc "VideoObject") then parseDuration (dur.getD [])
    else findDuration rest

/-- get_video_metadata of src/app.py: any network or HTTP failure yields
the sentinel metadata with the canonical URL still populated; a fetched
page is parsed field by field. -/
def get_video_metadata (vid : List Char) : Except Unit Page → VideoMetadata
  | .error _ => ⟨lc "Unknown Title", [], lc "Unknown", watchUrl vid⟩
  | .ok page => ⟨computeTitle page, computeDescription page, findDuration page.ldScripts, watchUrl vid⟩

example : get_video_metadata (lc "dQw4w9WgXcQ") (.error ()) =
    ⟨lc "Unknown Title", [], lc "Unknown", lc "https://www.youtube.com/watch?v=dQw4w9WgXcQ"⟩ := by decide
example : computeTitle ⟨none, some (lc "My Video - YouTube"), none, []⟩ = lc "My Video" := by decide
example : computeTitle_t ⟨none, some (lc "My Video - YouTube"), none, []⟩ = lc "Unknown Title" := by decide
example : findDuration [.fail, .entry (some (lc "Other")) none, .entry (some (lc "VideoObject")) (some (lc "PT42S"))] = lc "42s" := by decide

/-!
get_batch_transcripts, src/transcript.py lines 274-350. The request body is
modelled as: none when the JSON body is absent or lacks a urls key, some
none when the urls value is not a list, and some (some urls) otherwise. The
per-URL processing (extraction, fetch, response shaping, delay) is
abstracted by a function parameter so that the validation behaviour can be
stated independently of it.
-/

inductive BatchResponse (α : Type) where
  | rateLimited : BatchResponse α
  | invalid (msg : List Char) : BatchResponse α
  | ok (results : List α) : BatchResponse α
deriving DecidableEq

def get_batch_transcripts {α : Type} (process : List Char → α) (admitted : Bool)
    (body : Option (Option (List (List Char)))) : BatchResponse α :=
  if admitted = false then .rateLimited
  else
    match body with
    | none => .invalid (lc "Missing URLs array in request body")
    | some none => .invalid (lc "URLs must be a non-empty array")
    | some (some urls) =>
      if urls.length = 0 then .invalid (lc "URLs must be a non-empty array")
      else if urls.length > 5 then .invalid (lc "Batch size limited to 5 URLs")
      else .ok (urls.map process)

example : get_batch_transcripts (fun _ => ()) true (some (some [])) =
    .invalid (lc "URLs must be a non-empty array") := by decide
example : get_batch_transcripts (fun _ => ()) true (some (some [lc "a", lc "b", lc "c", lc "d", lc "e", lc "f"])) =
    .invalid (lc "Batch size limited to 5 URLs") := by decide

/-! Supporting lemmas about the string primitives. -/

lemma isPrefixOf_append_self (l t : List Char) : l.isPrefixOf (l ++ t) = true := by
  induction l with
  | nil => simp [List.isPrefixOf]
  | cons c l ih => simp [List.isPrefixOf, ih]

lemma drop_append_length (l₁ l₂ : List α) (i : Nat) :
    (l₁ ++ l₂).drop (l₁.length + i) = l₂.drop i := by
  induction l₁ with
  | nil => simp
  | cons c l₁ ih =>
    simp only [List.cons_append, List.length_cons, Nat.succ_add, List.drop_succ_cons]
    exact ih

lemma occursAt_le_length {sep s : List Char} {i : Nat} (hsep : sep ≠ [])
    (h : occursAt sep s i) : i ≤ s.length := by
  by_contra hgt
  push_neg at hgt
  have hdrop : s.drop i = [] := List.drop_eq_nil_of_le (le_of_lt hgt)
  unfold occursAt at h
  rw [hdrop] at h
  cases sep with
  | nil => exact hsep rfl
  | cons c cs => simp [List.isPrefixOf] at h

lemma containsSub_of_occursAt {sep s : List Char} {i : Nat} (h : occursAt sep s i) :
    containsSub sep s = true := by
  induction s generalizing i with
  | nil =>
    unfold occursAt at h
    simpa [containsSub] using h
  | cons c rest ih =>
    cases i with
    | zero =>
      unfold occursAt at h
      simp only [List.drop_zero] at h
      simp [containsSub, h]
    | succ i =>
      unfold occursAt at h
      rw [List.drop_succ_cons] at h
      simp [containsSub, ih h]

lemma pySplitGo_no_occ (sep : List Char) :
    ∀ (s : List Char) (fuel : Nat) (acc : List Char),
      s.length ≤ fuel → (∀ i, ¬ occursAt sep s i) →
      pySplitGo sep fuel acc s = [acc ++ s] := by
  intro s
  induction s with
  | nil =>
    intro fuel acc _ _
    cases fuel <;> simp [pySplitGo]
  | cons c rest ih =>
    intro fuel acc hf hno
    cases fuel with
    | zero => simp at hf
    | succ f =>
      have h0 : sep.isPrefixOf (c :: rest) = false := by
        have h00 := hno 0
        unfold occursAt at h00
        simp only [List.drop_zero] at h00
        exact Bool.eq_false_iff.mpr h00
      rw [pySplitGo, h0]
      simp only [Bool.false_eq_true, if_false]
      have hshift : ∀ i, ¬ occursAt sep rest i := by
        intro i hi
        apply hno (i + 1)
        unfold occursAt at hi ⊢
        rwa [List.drop_succ_cons]
      have hle : rest.length ≤ f := by
        simp only [List.length_cons] at hf
        omega
      rw [ih f (acc ++ [c]) hle hshift]
      simp

lemma pySplitGo_unique (sep : List Char) (hsep : sep ≠ []) (b : List Char) :
    ∀ (pre acc : List Char) (fuel : Nat),
      (pre ++ (sep ++ b)).length ≤ fuel →
      (∀ i, occursAt sep (pre ++ (sep ++ b)) i → i = pre.length) →
      pySplitGo sep fuel acc (pre ++ (sep ++ b)) = [acc ++ pre, b] := by
  intro pre
  induction pre with
  | nil =>
    intro acc fuel hf hu
    obtain ⟨c, cs, rfl⟩ : ∃ c cs, sep = c :: cs := by
      cases sep with
      | nil => exact absurd rfl hsep
      | cons c cs => exact ⟨c, cs, rfl⟩
    cases fuel with
    | zero => simp at hf
    | succ f =>
      simp only [List.nil_append] at hu ⊢
      have hpre : (c :: cs).isPrefixOf (c :: (cs ++ b)) = true :=
        isPrefixOf_append_self (c :: cs) b
      rw [show (c :: cs) ++ b = c :: (cs ++ b) from rfl, pySplitGo, hpre]
      simp only [if_true]
      have hdrop : (c :: (cs ++ b)).drop (c :: cs).length = b :=
        List.drop_left (c :: cs) b
      rw [hdrop]
      have hnob : ∀ i, ¬ occursAt (c :: cs) b i := by
        intro i hi
        have : occursAt (c :: cs) ((c :: cs) ++ b) ((c :: cs).length + i) := by
          unfold occursAt at hi ⊢
          rwa [drop_append_length]
        have := hu ((c :: cs).length + i) (by simpa using this)
        simp at this
      have hfb : b.length ≤ f := by
        simp only [List.cons_append, List.length_cons, List.length_append] at hf
        omega
      rw [pySplitGo_no_occ (c :: cs) b f [] hfb hnob]
      simp
  | cons cp pre' ih =>
    intro acc fuel hf hu
    cases fuel with
    | zero => simp at hf
    | succ f =>
      have h0 : sep.isPrefixOf (cp :: (pre' ++ (sep ++ b))) = false := by
        by_contra hx
        have hx' : sep.isPrefixOf ((cp :: pre') ++ (sep ++ b)) = true := by
          simpa using Bool.of_not_eq_false hx
        have := hu 0 (by unfold occursAt; simpa using hx')
        simp at this
      have hstep : (cp :: pre') ++ (sep ++ b) = cp :: (pre' ++ (sep ++ b)) := rfl
      rw [hstep, pySplitGo, h0]
      simp only [Bool.false_eq_true, if_false]
      have hu' : ∀ i, occursAt sep (pre' ++ (sep ++ b)) i → i = pre'.length := by
        intro i hi
        have : occursAt sep ((cp :: pre') ++ (sep ++ b)) (i + 1) := by
          unfold occursAt at hi ⊢
          rwa [hstep, List.drop_succ_cons]
        have := hu (i + 1) this
        simpa using this
      have hf' : (pre' ++ (sep ++ b)).length ≤ f := by
        rw [hstep] at hf
        simpa using Nat.lt_succ_iff.mp (Nat.lt_of_lt_of_le (Nat.lt_succ_of_le le_rfl) hf)
      rw [ih (acc ++ [cp]) f hf' hu']
      simp

lemma afterLast_unique {sep : List Char} (hsep : sep ≠ []) (pre b : List Char)
    (hu : ∀ i, occursAt sep (pre ++ (sep ++ b)) i → i = pre.length) :
    afterLast sep (pre ++ (sep ++ b)) = b := by
  unfold afterLast pySplit
  rw [pySplitGo_unique sep hsep b pre [] _ le_rfl hu]
  simp

lemma pySplitGo_head_sep (ch : Char) :
    ∀ (tok r acc : List Char) (fuel : Nat),
      (tok ++ ch :: r).length ≤ fuel → ch ∉ tok →
      (pySplitGo [ch] fuel acc (tok ++ ch :: r)).headD [] = acc ++ tok := by
  intro tok
  induction tok with
  | nil =>
    intro r acc fuel hf _
    cases fuel with
    | zero => simp at hf
    | succ f =>
      have hpre : [ch].isPrefixOf (ch :: r) = true := by simp [List.isPrefixOf]
      rw [List.nil_append, pySplitGo, hpre]
      simp
  | cons c tok' ih =>
    intro r acc fuel hf hmem
    cases fuel with
    | zero => simp at hf
    | succ f =>
      have hne : ch ≠ c := by
        intro hx
        exact hmem (hx ▸ List.mem_cons_self c tok')
      have h0 : [ch].isPrefixOf (c :: (tok' ++ ch :: r)) = false := by
        simp [List.isPrefixOf, hne]
      rw [List.cons_append, pySplitGo, h0]
      simp only [Bool.false_eq_true, if_false]
      have hle : (tok' ++ ch :: r).length ≤ f := by
        simp only [List.cons_append, List.length_cons] at hf
        omega
      rw [ih r (acc ++ [c]) f hle (fun hx => hmem (List.mem_cons_of_mem c hx))]
      simp

lemma not_occursAt_of_not_mem {ch : Char} {tok : List Char} (h : ch ∉ tok) :
    ∀ i, ¬ occursAt [ch] tok i := by
  intro i hi
  unfold occursAt at hi
  cases hdrop : tok.drop i with
  | nil => rw [hdrop] at hi; simp [List.isPrefixOf] at hi
  | cons c rest =>
    rw [hdrop] at hi
    simp only [List.isPrefixOf, Bool.and_eq_true, beq_iff_eq] at hi
    apply h
    have : c ∈ tok.drop i := by rw [hdrop]; exact List.mem_cons_self c rest
    exact hi.1 ▸ List.drop_subset i tok this

lemma beforeFirst_first {ch : Char} {tok rest : List Char} (h : ch ∉ tok)
    (hr : rest = [] ∨ ∃ r, rest = ch :: r) :
    beforeFirst [ch] (tok ++ rest) = tok := by
  unfold beforeFirst pySplit
  rcases hr with rfl | ⟨r, rfl⟩
  · rw [List.append_nil]
    rw [pySplitGo_no_occ [ch] tok tok.length [] le_rfl (not_occursAt_of_not_mem h)]
    simp
  · rw [pySplitGo_head_sep ch tok r [] _ le_rfl h]
    simp

/-! Supporting lemmas about the regular-expression matcher. -/

lemma grab_length {n : Nat} {p : Char → Bool} {s g : List Char}
    (h : grab n p s = some g) : g.length = n := by
  unfold grab at h
  simp only [] at h
  by_cases hc : (decide ((s.take n).length = n) && (s.take n).all p) = true
  · rw [if_pos hc] at h
    cases h
    exact of_decide_eq_true (Bool.and_eq_true _ _ |>.mp hc).1
  · rw [if_neg hc] at h
    cases h

lemma classStar_some {p : Char → Bool} {k : List Char → Option (List Char)}
    {s g : List Char} (h : classStar p k s = some g) : ∃ s2, k s2 = some g := by
  induction s with
  | nil => exact ⟨[], h⟩
  | cons c rest ih =>
    by_cases hp : p c = true
    · rcases hcs : classStar p k rest with _ | g2
      · rw [classStar, if_pos hp, hcs] at h
        exact ⟨c :: rest, h⟩
      · rw [classStar, if_pos hp, hcs] at h
        injection h with h2
        exact ih (h2 ▸ hcs)
    · rw [classStar, if_neg hp] at h
      exact ⟨c :: rest, h⟩

lemma matchRE_some :
    ∀ (r : RE) {s : List Char} {k : List Char → Option (List Char)} {g : List Char},
      matchRE r s k = some g → ∃ s2, k s2 = some g := by
  intro r
  induction r with
  | eps => intro s k g h; exact ⟨s, h⟩
  | tok p =>
    intro s k g h
    cases s with
    | nil => rw [matchRE] at h; cases h
    | cons c rest =>
      rw [matchRE] at h
      by_cases hp : p c = true
      · rw [if_pos hp] at h; exact ⟨rest, h⟩
      · rw [if_neg hp] at h; cases h
  | lit l =>
    intro s k g h
    rw [matchRE] at h
    by_cases hl : l.isPrefixOf s = true
    · rw [if_pos hl] at h; exact ⟨s.drop l.length, h⟩
    · rw [if_neg hl] at h; cases h
  | cat a b iha ihb =>
    intro s k g h
    rw [matchRE] at h
    obtain ⟨s2, h2⟩ := iha h
    exact ihb h2
  | alt a b iha ihb =>
    intro s k g h
    rw [matchRE] at h
    rcases hm : matchRE a s k with _ | g2
    · rw [hm] at h; exact ihb h
    · rw [hm] at h
      injection h with h2
      exact iha (h2 ▸ hm)
  | star p =>
    intro s k g h
    rw [matchRE] at h
    exact classStar_some h

lemma extract_candidate_length_check {url t : List Char}
    (h : extract_video_id url = some t) :
    extract_candidate url = some t ∧ t ≠ [] ∧ t.length = 11 := by
  unfold extract_video_id at h
  rcases hc : extract_candidate url with _ | v
  · rw [hc] at h; cases h
  · rw [hc] at h
    change (if v ≠ [] ∧ v.length = 11 then some v else none) = some t at h
    by_cases hv : v ≠ [] ∧ v.length = 11
    · rw [if_pos hv] at h
      injection h with h2
      subst h2
      exact ⟨rfl, hv⟩
    · rw [if_neg hv] at h; cases h

lemma reSearch_length {s g : List Char} (h : reSearch s = some g) : g.length = 11 := by
  induction s with
  | nil =>
    rw [reSearch] at h
    obtain ⟨s2, h2⟩ := matchRE_some _ h
    exact grab_length h2
  | cons c rest ih =>
    rw [reSearch] at h
    rcases hm : matchRE ytPattern (c :: rest) (grab 11 idClass) with _ | g2
    · rw [hm] at h; exact ih h
    · rw [hm] at h
      injection h with h2
      obtain ⟨s2, h3⟩ := matchRE_some _ (h2 ▸ hm)
      exact grab_length h3

/-- A shared derivation for the three substring branches: when the URL
decomposes as a prefix, the branch separator, the token and a remainder,
with the separator occurring only at that position, the token free of the
inner separator, and the remainder empty or starting with the inner
separator, the branch computes exactly the token. -/
lemma branch_token {sep : List Char} (hsep : sep ≠ []) {ch : Char}
    (pre tok rest : List Char) (hch : ch ∉ tok)
    (hrest : rest = [] ∨ ∃ r, rest = ch :: r)
    (hu : ∀ i, occursAt sep (pre ++ (sep ++ (tok ++ rest))) i → i = pre.length) :
    containsSub sep (pre ++ (sep ++ (tok ++ rest))) = true
    ∧ beforeFirst [ch] (afterLast sep (pre ++ (sep ++ (tok ++ rest)))) = tok := by
  have hocc : occursAt sep (pre ++ (sep ++ (tok ++ rest))) pre.length := by
    unfold occursAt
    rw [List.drop_left pre (sep ++ (tok ++ rest))]
    exact isPrefixOf_append_self sep (tok ++ rest)
  refine ⟨containsSub_of_occursAt hocc, ?_⟩
  rw [afterLast_unique hsep pre (tok ++ rest) hu]
  exact beforeFirst_first hch hrest

lemma lc_amp : lc "&" = ['&'] := rfl

lemma lc_qm : lc "?" = ['?'] := rfl

/-- C1: as stated over both source files the claim fails; this is the
amended form. The extract_video_id of app.py returns only 11-character
tokens, and both implementations return the exact embedded token for each
recognized URL shape: the three substring branches (under the matching
decomposition, with the branch separator occurring once, the token free of
the inner separator, and the remainder empty or starting with the inner
separator) and the regex fallback (whose capture is always 11 characters).
The extract_video_id of transcript.py returns the raw branch candidate
without any length check. -/
theorem extract_video_id_spec :
    (∀ url t : List Char, extract_video_id url = some t → t.length = 11)
    ∧ (∀ pre tok rest : List Char, '&' ∉ tok →
        (rest = [] ∨ ∃ r, rest = '&' :: r) →
        (∀ i, occursAt (lc "watch?v=") (pre ++ (lc "watch?v=" ++ (tok ++ rest))) i → i = pre.length) →
        extract_video_id_t (pre ++ (lc "watch?v=" ++ (tok ++ rest))) = some tok
        ∧ (tok.length = 11 →
            extract_video_id (pre ++ (lc "watch?v=" ++ (tok ++ rest))) = some tok))
    ∧ (∀ pre tok rest : List Char,
        containsSub (lc "watch?v=") (pre ++ (lc "youtu.be/" ++ (tok ++ rest))) = false →
        '?' ∉ tok →
        (rest = [] ∨ ∃ r, rest = '?' :: r) →
        (∀ i, occursAt (lc "youtu.be/") (pre ++ (lc "youtu.be/" ++ (tok ++ rest))) i → i = pre.length) →
        extract_video_id_t (pre ++ (lc "youtu.be/" ++ (tok ++ rest))) = some tok
        ∧ (tok.length = 11 →
            extract_video_id (pre ++ (lc "youtu.be/" ++ (tok ++ rest))) = some tok))
    ∧ (∀ pre tok rest : List Char,
        containsSub (lc "watch?v=") (pre ++ (lc "embed/" ++ (tok ++ rest))) = false →
        containsSub (lc "youtu.be/") (pre ++ (lc "embed/" ++ (tok ++ rest))) = false →
        '?' ∉ tok →
        (rest = [] ∨ ∃ r, rest = '?' :: r) →
        (∀ i, occursAt (lc "embed/") (pre ++ (lc "embed/" ++ (tok ++ rest))) i → i = pre.length) →
        extract_video_id_t (pre ++ (lc "embed/" ++ (tok ++ rest))) = some tok
        ∧ (tok.length = 11 →
            extract_video_id (pre ++ (lc "embed/" ++ (tok ++ rest))) = some tok))
    ∧ (∀ url g : List Char,
        containsSub (lc "watch?v=") url = false →
        containsSub (lc "youtu.be/") url = false →
        containsSub (lc "embed/") url = false →
        reSearch url = some g →
        extract_video_id_t url = some g ∧ extract_video_id url = some g ∧ g.length = 11) := by
  refine ⟨?_, ?_, ?_, ?_, ?_⟩
  · intro url t h
    exact (extract_candidate_length_check h).2.2
  · intro pre tok rest hch hrest hu
    obtain ⟨hcont, hval⟩ := branch_token (by decide) pre tok rest hch hrest hu
    have hcand : extract_candidate (pre ++ (lc "watch?v=" ++ (tok ++ rest))) = some tok := by
      unfold extract_candidate
      rw [hcont, lc_amp]
      simp [hval]
    refine ⟨hcand, fun hlen => ?_⟩
    have hne : tok ≠ [] := by
      intro hx; rw [hx] at hlen; simp at hlen
    unfold extract_video_id
    rw [hcand]
    change (if tok ≠ [] ∧ tok.length = 11 then some tok else none) = some tok
    rw [if_pos ⟨hne, hlen⟩]
  · intro pre tok rest hw hch hrest hu
    obtain ⟨hcont, hval⟩ := branch_token (by decide) pre tok rest hch hrest hu
    have hcand : extract_candidate (pre ++ (lc "youtu.be/" ++ (tok ++ rest))) = some tok := by
      unfold extract_candidate
      rw [hw, hcont, lc_qm]
      simp [hval]
    refine ⟨hcand, fun hlen => ?_⟩
    have hne : tok ≠ [] := by
      intro hx; rw [hx] at hlen; simp at hlen
    unfold extract_video_id
    rw [hcand]
    change (if tok ≠ [] ∧ tok.length = 11 then some tok else none) = some tok
    rw [if_pos ⟨hne, hlen⟩]
  · intro pre tok rest hw hy hch hrest hu
    obtain ⟨hcont, hval⟩ := branch_token (by decide) pre tok rest hch hrest hu
    have hcand : extract_candidate (pre ++ (lc "embed/" ++ (tok ++ rest))) = some tok := by
      unfold extract_candidate
      rw [hw, hy, hcont, lc_qm]
      simp [hval]
    refine ⟨hcand, fun hlen => ?_⟩
    have hne : tok ≠ [] := by
      intro hx; rw [hx] at hlen; simp at hlen
    unfold extract_video_id
    rw [hcand]
    change (if tok ≠ [] ∧ tok.length = 11 then some tok else none) = some tok
    rw [if_pos ⟨hne, hlen⟩]
  · intro url g h1 h2 h3 hre
    have hlen := reSearch_length hre
    have hne : g ≠ [] := by
      intro hx; rw [hx] at hlen; simp at hlen
    have hcand : extract_candidate url = some g := by
      unfold extract_candidate
      rw [h1, h2, h3]
      simp [hre]
    refine ⟨hcand, ?_, hlen⟩
    unfold extract_video_id
    rw [hcand]
    change (if g ≠ [] ∧ g.length = 11 then some g else none) = some g
    rw [if_pos ⟨hne, hlen⟩]

/-- C1 counterexample: the extract_video_id of transcript.py returns the
five-character candidate for a watch URL with a short token instead of an
absent result, so the claim fails as stated over both files. -/
theorem extract_video_id_t_short_token :
    extract_video_id_t (lc "https://www.youtube.com/watch?v=short") = some (lc "short")
    ∧ (lc "short").length ≠ 11 := by decide

/-- C1 witness: the watch branch of the amended theorem applied to the
canonical example URL. -/
theorem extract_video_id_spec_witness :
    extract_video_id_t (lc "https://www.youtube.com/" ++ (lc "watch?v=" ++ (lc "dQw4w9WgXcQ" ++ ([] : List Char)))) = some (lc "dQw4w9WgXcQ")
    ∧ ((lc "dQw4w9WgXcQ").length = 11 →
        extract_video_id (lc "https://www.youtube.com/" ++ (lc "watch?v=" ++ (lc "dQw4w9WgXcQ" ++ ([] : List Char)))) = some (lc "dQw4w9WgXcQ")) :=
  extract_video_id_spec.2.1 (lc "https://www.youtube.com/") (lc "dQw4w9WgXcQ") []
    (by decide)
    (Or.inl rfl)
    (by
      intro i hi
      have hb := occursAt_le_length (by decide) hi
      have h43 : (lc "https://www.youtube.com/" ++ (lc "watch?v=" ++ (lc "dQw4w9WgXcQ" ++ ([] : List Char)))).length = 43 := by decide
      rw [h43] at hb
      have hball : ∀ j, j ≤ 43 →
          occursAt (lc "watch?v=") (lc "https://www.youtube.com/" ++ (lc "watch?v=" ++ (lc "dQw4w9WgXcQ" ++ ([] : List Char)))) j →
          j = (lc "https://www.youtube.com/").length := by decide
      exact hball i hb hi)

/-! Supporting lemmas about the transcript fallback chain. -/

lemma acquireText_error_bound {p : Provider} {e : List Char}
    (h : acquireText p = .error e) : e ≠ [] ∧ e.length ≤ 125 := by
  rcases p with ⟨m1, m2, m3⟩
  cases m1 with
  | ok segs => simp [acquireText] at h
  | error e1 =>
    cases m2 with
    | ok segs => simp [acquireText] at h
    | error e2 =>
      cases m3 with
      | error e3 =>
        simp only [acquireText] at h
        injection h with h2
        subst h2
        refine ⟨by simp [lc], ?_⟩
        have h25 : (lc "No transcript available: ").length = 25 := by decide
        have h100 : (e1.take 100).length ≤ 100 := by
          rw [List.length_take]; omega
        rw [List.length_append, h25]
        omega
      | ok tracks =>
        by_cases ht : tryTracks tracks = []
        · simp only [acquireText, ht, if_pos] at h
          injection h with h2
          subst h2
          exact ⟨by decide, by decide⟩
        · simp [acquireText, ht] at h

/-- C2 counterexample: a provider whose first method returns one segment
consisting only of a bracketed annotation makes fetch_transcript report
success with an empty cleaned text, because the emptiness test is applied
to the raw text before cleaning. -/
theorem fetch_transcript_success_empty_text :
    fetch_transcript ⟨.ok [⟨lc "[Music]"⟩], .error [], .error []⟩ = ⟨[], true, []⟩ := by decide

/-- C2 amended: success implies an empty error message and a text equal to
the cleaned form of the non-empty raw text produced by the fallback chain
(the cleaned text itself may be empty); failure implies an empty text and a
non-empty error message. -/
theorem fetch_transcript_result_invariant (p : Provider) :
    ((fetch_transcript p).success = true →
      (fetch_transcript p).errorMessage = []
      ∧ ∃ t, acquireText p = .ok t ∧ t ≠ [] ∧ (fetch_transcript p).text = pyClean t)
    ∧ ((fetch_transcript p).success = false →
      (fetch_transcript p).text = [] ∧ (fetch_transcript p).errorMessage ≠ []) := by
  rcases hq : acquireText p with e | t
  · have hb := acquireText_error_bound hq
    have hf : fetch_transcript p = ⟨[], false, e⟩ := by
      rw [fetch_transcript, hq]
    rw [hf]
    exact ⟨fun hs => by simp at hs, fun _ => ⟨rfl, hb.1⟩⟩
  · by_cases ht : t = []
    · have hf : fetch_transcript p = ⟨[], false, lc "No transcript text extracted"⟩ := by
        rw [fetch_transcript, hq]
        exact if_pos ht
      rw [hf]
      exact ⟨fun hs => by simp at hs, fun _ => ⟨rfl, by decide⟩⟩
    · have hf : fetch_transcript p = ⟨pyClean t, true, []⟩ := by
        rw [fetch_transcript, hq]
        exact if_neg ht
      rw [hf]
      exact ⟨fun _ => ⟨rfl, t, rfl, ht, rfl⟩, fun hs => by simp at hs⟩

/-- C2 witness: the success side of the invariant at a concrete provider. -/
theorem fetch_transcript_result_invariant_witness :
    (fetch_transcript ⟨.ok [⟨lc "hello"⟩, ⟨lc "world"⟩], .error [], .error []⟩).errorMessage = []
    ∧ ∃ t, acquireText ⟨.ok [⟨lc "hello"⟩, ⟨lc "world"⟩], .error [], .error []⟩ = .ok t
        ∧ t ≠ [] ∧ (fetch_transcript ⟨.ok [⟨lc "hello"⟩, ⟨lc "world"⟩], .error [], .error []⟩).text = pyClean t :=
  (fetch_transcript_result_invariant ⟨.ok [⟨lc "hello"⟩, ⟨lc "world"⟩], .error [], .error []⟩).1 (by decide)

/-- C4: every failure of fetch_transcript carries an empty text and a
diagnostic of at most 125 characters, and when all three provider calls
raise, the diagnostic is built from the first error truncated to 100
characters. -/
theorem fetch_transcript_error_handling (p : Provider) :
    ((fetch_transcript p).success = false →
      (fetch_transcript p).text = [] ∧ (fetch_transcript p).errorMessage.length ≤ 125)
    ∧ (∀ e1 e2 e3, p.method1 = .error e1 → p.method2 = .error e2 → p.method3 = .error e3 →
        fetch_transcript p = ⟨[], false, lc "No transcript available: " ++ e1.take 100⟩) := by
  constructor
  · intro hs
    rcases hq : acquireText p with e | t
    · have hb := acquireText_error_bound hq
      have hf : fetch_transcript p = ⟨[], false, e⟩ := by
        rw [fetch_transcript, hq]
      rw [hf]
      exact ⟨rfl, hb.2⟩
    · by_cases ht : t = []
      · have hf : fetch_transcript p = ⟨[], false, lc "No transcript text extracted"⟩ := by
          rw [fetch_transcript, hq]
          exact if_pos ht
        rw [hf]
        exact ⟨rfl, by decide⟩
      · have hf : fetch_transcript p = ⟨pyClean t, true, []⟩ := by
          rw [fetch_transcript, hq]
          exact if_neg ht
        rw [hf] at hs
        simp at hs
  · intro e1 e2 e3 h1 h2 h3
    rcases p with ⟨m1, m2, m3⟩
    simp only at h1 h2 h3
    subst h1; subst h2; subst h3
    rfl

/-- C4 witness: all three methods raising at a concrete provider. -/
theorem fetch_transcript_error_handling_witness :
    fetch_transcript ⟨.error (lc "boom"), .error (lc "x"), .error (lc "y")⟩ =
      ⟨[], false, lc "No transcript available: " ++ (lc "boom").take 100⟩ :=
  (fetch_transcript_error_handling ⟨.error (lc "boom"), .error (lc "x"), .error (lc "y")⟩).2
    (lc "boom") (lc "x") (lc "y") rfl rfl rfl

/-- C5: the cleaning step removes bracketed annotations, then collapses
whitespace runs and trims, cleaning the reference input to the reference
output; fetch_transcript applies exactly this cleaning to the non-empty raw
text it accepts. -/
theorem clean_transcript_spec :
    pyClean (lc "Hello [Music] world   foo") = lc "Hello world foo"
    ∧ (∀ s, pyClean s = pyStrip (collapseWs (removeBrackets s)))
    ∧ (∀ (p : Provider) (t : List Char), acquireText p = .ok t → t ≠ [] →
        (fetch_transcript p).text = pyClean t) := by
  refine ⟨by decide, fun s => rfl, ?_⟩
  intro p t hq ht
  simp only [fetch_transcript, hq, if_neg ht]

/-- C5 witness: the cleaning of the accepted raw text at a concrete
provider. -/
theorem clean_transcript_spec_witness :
    (fetch_transcript ⟨.ok [⟨lc "Hello [Music] world   foo"⟩], .error [], .error []⟩).text =
      pyClean (lc "Hello [Music] world   foo") :=
  clean_transcript_spec.2.2 ⟨.ok [⟨lc "Hello [Music] world   foo"⟩], .error [], .error []⟩
    (lc "Hello [Music] world   foo") rfl (by decide)

/-! Supporting lemmas about the rate limiter. -/

lemma rate_limit_check_length {maxReq : Nat} {now : ℚ} {s : List ℚ}
    (h : s.length ≤ maxReq) : (rate_limit_check maxReq now s).2.length ≤ maxReq := by
  unfold rate_limit_check
  set live := s.filter fun t => decide (now - t < 60) with hlive
  have hle : live.length ≤ s.length := List.length_filter_le _ _
  by_cases hm : maxReq ≤ live.length
  · rw [if_pos hm]
    exact le_trans hle h
  · rw [if_neg hm]
    simp only [List.length_append, List.length_cons, List.length_nil]
    omega

lemma filter_keep_all {now : ℚ} {s : List ℚ} (h : ∀ t ∈ s, now - t < 60) :
    (s.filter fun t => decide (now - t < 60)) = s := by
  apply List.filter_eq_self.mpr
  intro a ha
  exact decide_eq_true (h a ha)

lemma runCalls_no_expiry (maxReq : Nat) :
    ∀ (times s : List ℚ),
      (∀ a ∈ times, ∀ t ∈ s, a - t < 60) →
      (∀ a ∈ times, ∀ b ∈ times, a - b < 60) →
      runCalls maxReq times s =
        (List.range times.length).map fun k => decide (s.length + k < maxReq) := by
  intro times
  induction times with
  | nil => intro s _ _; simp [runCalls]
  | cons t rest ih =>
    intro s h1 h2
    have hmemt : t ∈ t :: rest := List.mem_cons_self t rest
    have hfilter : (s.filter fun τ => decide (t - τ < 60)) = s :=
      filter_keep_all (h1 t hmemt)
    have h1' : ∀ a ∈ rest, ∀ τ ∈ s ++ [t], a - τ < 60 := by
      intro a ha τ hτ
      rcases List.mem_append.mp hτ with hτ | hτ
      · exact h1 a (List.mem_cons_of_mem t ha) τ hτ
      · have hq : τ = t := List.mem_singleton.mp hτ
        rw [hq]
        exact h2 a (List.mem_cons_of_mem t ha) t hmemt
    have h1'' : ∀ a ∈ rest, ∀ τ ∈ s, a - τ < 60 := by
      intro a ha τ hτ
      exact h1 a (List.mem_cons_of_mem t ha) τ hτ
    have h2' : ∀ a ∈ rest, ∀ b ∈ rest, a - b < 60 := by
      intro a ha b hb
      exact h2 a (List.mem_cons_of_mem t ha) b (List.mem_cons_of_mem t hb)
    by_cases hm : maxReq ≤ s.length
    · have hr : rate_limit_check maxReq t s = (false, s) := by
        unfold rate_limit_check
        rw [hfilter, if_pos hm]
      rw [runCalls, hr, ih s h1'' h2']
      rw [show (t :: rest).length = rest.length + 1 from rfl]
      rw [List.range_succ_eq_map, List.map_cons, List.map_map]
      refine List.cons_eq_cons.mpr ⟨?_, ?_⟩
      · show false = decide (s.length + 0 < maxReq)
        symm
        simp only [decide_eq_false_iff_not]
        omega
      · apply List.map_congr_left
        intro k _
        simp only [Function.comp_apply]
        rw [decide_eq_decide]
        omega
    · have hr : rate_limit_check maxReq t s = (true, s ++ [t]) := by
        unfold rate_limit_check
        rw [hfilter, if_neg hm]
      rw [runCalls, hr, ih (s ++ [t]) h1' h2']
      rw [show (t :: rest).length = rest.length + 1 from rfl]
      rw [List.range_succ_eq_map, List.map_cons, List.map_map]
      refine List.cons_eq_cons.mpr ⟨?_, ?_⟩
      · show true = decide (s.length + 0 < maxReq)
        symm
        simp only [decide_eq_true_eq]
        omega
      · apply List.map_congr_left
        intro k _
        simp only [Function.comp_apply, List.length_append, List.length_cons, List.length_nil]
        rw [decide_eq_decide]
        omega

lemma range_map_decide_lt (n : Nat) :
    ((List.range (n + 1)).map fun k => decide (k < n)) =
      List.replicate n true ++ [false] := by
  rw [List.range_succ, List.map_append]
  congr 1
  · apply List.eq_replicate_iff.mpr
    refine ⟨by simp, ?_⟩
    intro b hb
    rcases List.mem_map.mp hb with ⟨k, hk, rfl⟩
    exact decide_eq_true (List.mem_range.mp hk)
  · simp

lemma rate_limit_check_eq (maxReq : Nat) (now : ℚ) (s : List ℚ) :
    rate_limit_check maxReq now s =
      if maxReq ≤ (s.filter fun t => decide (now - t < 60)).length
      then (false, s.filter fun t => decide (now - t < 60))
      else (true, (s.filter fun t => decide (now - t < 60)) ++ [now]) := rfl

lemma filter_partition (now : ℚ) (s : List ℚ) :
    (s.filter fun t => decide (now - t < 60)).length
      + (s.filter fun t => decide (60 ≤ now - t)).length = s.length := by
  induction s with
  | nil => rfl
  | cons τ rest ih =>
    by_cases h : now - τ < 60
    · have h2 : ¬ (60 ≤ now - τ) := not_le.mpr h
      simp only [List.filter_cons, decide_eq_true h, decide_eq_false h2, if_true,
        Bool.false_eq_true, if_false, List.length_cons]
      omega
    · have h2 : 60 ≤ now - τ := not_lt.mp h
      simp only [List.filter_cons, decide_eq_false h, decide_eq_true h2, if_true,
        Bool.false_eq_true, if_false, List.length_cons]
      omega

/-- C3: rate_limit_check keeps exactly the stored timestamps younger than 60
seconds relative to now, rejects without appending when at least the
configured maximum remain and otherwise appends now and accepts; the kept
and expired entries partition the stored list, and max+1 calls whose times
all lie within a common 60-second window produce exactly max admissions
followed by one rejection. -/
theorem rate_limit_check_spec (maxReq : Nat) (now : ℚ) (s : List ℚ) :
    ((rate_limit_check maxReq now s).1 = true ↔
      (s.filter fun t => decide (now - t < 60)).length < maxReq)
    ∧ ((rate_limit_check maxReq now s).1 = true →
      (rate_limit_check maxReq now s).2 = (s.filter fun t => decide (now - t < 60)) ++ [now])
    ∧ ((rate_limit_check maxReq now s).1 = false →
      (rate_limit_check maxReq now s).2 = s.filter fun t => decide (now - t < 60))
    ∧ ((s.filter fun t => decide (now - t < 60)).length
        + (s.filter fun t => decide (60 ≤ now - t)).length = s.length)
    ∧ (∀ times : List ℚ, times.length = maxReq + 1 →
        (∀ a ∈ times, ∀ b ∈ times, a - b < 60) →
        runCalls maxReq times [] = List.replicate maxReq true ++ [false]) := by
  refine ⟨?_, ?_, ?_, filter_partition now s, ?_⟩
  · rw [rate_limit_check_eq]
    by_cases hm : maxReq ≤ (s.filter fun t => decide (now - t < 60)).length
    · rw [if_pos hm]
      simp only [Bool.false_eq_true, false_iff]
      omega
    · rw [if_neg hm]
      simp only [true_iff]
      omega
  · rw [rate_limit_check_eq]
    by_cases hm : maxReq ≤ (s.filter fun t => decide (now - t < 60)).length
    · rw [if_pos hm]
      intro h
      simp at h
    · rw [if_neg hm]
      intro _
      rfl
  · rw [rate_limit_check_eq]
    by_cases hm : maxReq ≤ (s.filter fun t => decide (now - t < 60)).length
    · rw [if_pos hm]
      intro _
      rfl
    · rw [if_neg hm]
      intro h
      simp at h
  · intro times hlen hwin
    rw [runCalls_no_expiry maxReq times [] (by intro a _ τ hτ; simp at hτ) hwin, hlen]
    simp only [List.length_nil, Nat.zero_add]
    exact range_map_decide_lt maxReq

/-- C3 witness: with a maximum of two, three calls inside one window are
admitted, admitted, rejected. -/
theorem rate_limit_check_spec_witness :
    runCalls 2 [0, 1, 2] [] = List.replicate 2 true ++ [false] :=
  (rate_limit_check_spec 2 0 []).2.2.2.2 [0, 1, 2] (by rfl)
    (by
      intro a ha b hb
      fin_cases ha <;> fin_cases hb <;> norm_num)

lemma runState_length_le (maxReq : Nat) :
    ∀ (times s : List ℚ), s.length ≤ maxReq → (runState maxReq times s).length ≤ maxReq := by
  intro times
  induction times with
  | nil =>
    intro s h
    simpa [runState] using h
  | cons t rest ih =>
    intro s h
    rw [runState]
    exact ih _ (rate_limit_check_length h)

/-- C10: after any call starting from a state within the bound, the stored
list stays within the configured maximum (hence every state reachable from
the empty initial state satisfies the bound), every remaining timestamp is
strictly younger than 60 seconds relative to now, and a rejected call still
replaces the state by its purged form without appending. -/
theorem rate_limit_state_invariant (maxReq : Nat) (now : ℚ) (s : List ℚ) :
    (s.length ≤ maxReq → (rate_limit_check maxReq now s).2.length ≤ maxReq)
    ∧ (∀ t ∈ (rate_limit_check maxReq now s).2, now - t < 60)
    ∧ ((rate_limit_check maxReq now s).1 = false →
      (rate_limit_check maxReq now s).2 = s.filter fun t => decide (now - t < 60))
    ∧ (∀ times : List ℚ, (runState maxReq times []).length ≤ maxReq) := by
  refine ⟨fun h => rate_limit_check_length h, ?_, ?_, ?_⟩
  · rw [rate_limit_check_eq]
    by_cases hm : maxReq ≤ (s.filter fun t => decide (now - t < 60)).length
    · rw [if_pos hm]
      intro τ hτ
      have hτ2 : τ ∈ s.filter fun x => decide (now - x < 60) := hτ
      have hp := List.of_mem_filter hτ2
      exact of_decide_eq_true hp
    · rw [if_neg hm]
      intro τ hτ
      have hτ2 : τ ∈ (s.filter fun x => decide (now - x < 60)) ++ [now] := hτ
      rcases List.mem_append.mp hτ2 with h | h
      · have hp := List.of_mem_filter h
        exact of_decide_eq_true hp
      · have hq : τ = now := List.mem_singleton.mp h
        rw [hq, sub_self]
        norm_num
  · rw [rate_limit_check_eq]
    by_cases hm : maxReq ≤ (s.filter fun t => decide (now - t < 60)).length
    · rw [if_pos hm]
      intro _
      rfl
    · rw [if_neg hm]
      intro h
      simp at h
  · intro times
    exact runState_length_le maxReq times [] (by simp)

/-- C10 witness: a call over a one-element state keeps the bound. -/
theorem rate_limit_state_invariant_witness :
    (rate_limit_check 30 0 [-10]).2.length ≤ 30 :=
  (rate_limit_state_invariant 30 0 [-10]).1 (by simp)

/-! Supporting lemmas about the duration pattern. -/

lemma takeWhile_digit_prefix (hd : List Char) (hall : hd.all Char.isDigit = true)
    {c : Char} (hc : Char.isDigit c = false) (rest : List Char) :
    (hd ++ c :: rest).takeWhile Char.isDigit = hd
    ∧ (hd ++ c :: rest).dropWhile Char.isDigit = c :: rest := by
  induction hd with
  | nil => simp [List.takeWhile, List.dropWhile, hc]
  | cons d hd2 ih =>
    rw [List.all_cons, Bool.and_eq_true] at hall
    obtain ⟨hdig, hrest⟩ := hall
    obtain ⟨iht, ihd⟩ := ih hrest
    constructor
    · rw [List.cons_append, List.takeWhile_cons, hdig]
      simp only [if_true]
      rw [iht]
    · rw [List.cons_append, List.dropWhile_cons, hdig]
      simp only [if_true]
      rw [ihd]

lemma groupParse_exact {term : Char} {hd : List Char} (hne : hd ≠ [])
    (hall : hd.all Char.isDigit = true) (hterm : Char.isDigit term = false)
    (r : List Char) :
    groupParse term (hd ++ term :: r) = (digitsToNat hd, r) := by
  obtain ⟨ht, hdr⟩ := takeWhile_digit_prefix hd hall hterm r
  unfold groupParse
  rw [ht, hdr]
  show (if hd ≠ [] ∧ term = term then (digitsToNat hd, r) else (0, hd ++ term :: r))
      = (digitsToNat hd, r)
  rw [if_pos ⟨hne, rfl⟩]

lemma pyMatchDuration_exact (hd md sd : List Char)
    (h1 : hd ≠ []) (h2 : md ≠ []) (h3 : sd ≠ [])
    (ha1 : hd.all Char.isDigit = true) (ha2 : md.all Char.isDigit = true)
    (ha3 : sd.all Char.isDigit = true) :
    pyMatchDuration (lc "PT" ++ (hd ++ ('H' :: (md ++ ('M' :: (sd ++ ['S'])))))) =
      some (digitsToNat hd, digitsToNat md, digitsToNat sd) := by
  have hpre := isPrefixOf_append_self (lc "PT") (hd ++ ('H' :: (md ++ ('M' :: (sd ++ ['S'])))))
  unfold pyMatchDuration
  rw [if_pos hpre]
  rw [show (lc "PT" ++ (hd ++ ('H' :: (md ++ ('M' :: (sd ++ ['S'])))))).drop 2
      = hd ++ ('H' :: (md ++ ('M' :: (sd ++ ['S'])))) from List.drop_left (lc "PT") _]
  rw [groupParse_exact h1 ha1 (by decide)]
  simp only []
  rw [groupParse_exact h2 ha2 (by decide)]
  simp only []
  rw [groupParse_exact h3 ha3 (by decide) ([] : List Char)]

/-- C6 counterexample: a malformed duration string that does begin with PT
is rendered as 0s, not as Unknown, because the all-optional pattern matches
the bare PT prefix. -/
theorem parseDuration_pt_garbage :
    parseDuration (lc "PTXYZ") = lc "0s" ∧ lc "0s" ≠ lc "Unknown" := by decide

/-- C6 amended: the three reference examples hold, a missing duration or one
not beginning with PT yields Unknown, but every string beginning with PT
parses (absent components count as zero, so malformed PT strings render as
0s); digit-group inputs parse to the rendering of their three values. -/
theorem parseDuration_spec :
    parseDuration (lc "PT1H5M12S") = lc "1h 5m 12s"
    ∧ parseDuration (lc "PT5M") = lc "5m 0s"
    ∧ parseDuration (lc "PT42S") = lc "42s"
    ∧ parseDuration [] = lc "Unknown"
    ∧ (∀ iso : List Char, (lc "PT").isPrefixOf iso = false → parseDuration iso = lc "Unknown")
    ∧ (∀ hd md sd : List Char, hd ≠ [] → md ≠ [] → sd ≠ [] →
        hd.all Char.isDigit = true → md.all Char.isDigit = true → sd.all Char.isDigit = true →
        parseDuration (lc "PT" ++ (hd ++ ('H' :: (md ++ ('M' :: (sd ++ ['S'])))))) =
          formatDuration (digitsToNat hd) (digitsToNat md) (digitsToNat sd)) := by
  refine ⟨by decide, by decide, by decide, by decide, ?_, ?_⟩
  · intro iso hpre
    unfold parseDuration
    rw [if_neg fun hx => Bool.false_ne_true (hpre ▸ hx.2)]
  · intro hd md sd h1 h2 h3 ha1 ha2 ha3
    have hm := pyMatchDuration_exact hd md sd h1 h2 h3 ha1 ha2 ha3
    have hpre := isPrefixOf_append_self (lc "PT") (hd ++ ('H' :: (md ++ ('M' :: (sd ++ ['S'])))))
    have hne : lc "PT" ++ (hd ++ ('H' :: (md ++ ('M' :: (sd ++ ['S']))))) ≠ [] := by
      rw [show lc "PT" = ['P', 'T'] from rfl]
      simp
    unfold parseDuration
    rw [if_pos ⟨hne, hpre⟩, hm]

/-- C6 witness: the digit-group conjunct applied to the components of the
first reference example. -/
theorem parseDuration_spec_witness :
    parseDuration (lc "PT" ++ (lc "1" ++ ('H' :: (lc "5" ++ ('M' :: (lc "12" ++ ['S'])))))) =
      formatDuration (digitsToNat (lc "1")) (digitsToNat (lc "5")) (digitsToNat (lc "12")) :=
  parseDuration_spec.2.2.2.2.2 (lc "1") (lc "5") (lc "12")
    (by decide) (by decide) (by decide) (by decide) (by decide) (by decide)

/-- C7: get_video_metadata never raises past its boundary; on a failed GET
it returns the sentinel metadata, and the url field always carries the
canonical watch-page URL for the video id. -/
theorem get_video_metadata_failure (vid : List Char) (resp : Except Unit Page) :
    (resp = .error () →
      get_video_metadata vid resp = ⟨lc "Unknown Title", [], lc "Unknown", watchUrl vid⟩)
    ∧ (get_video_metadata vid resp).url = watchUrl vid := by
  cases resp with
  | error u => exact ⟨fun _ => rfl, rfl⟩
  | ok page => exact ⟨fun h => (nomatch h), rfl⟩

/-- C7 witness: the failure branch at a concrete video id. -/
theorem get_video_metadata_failure_witness :
    get_video_metadata (lc "dQw4w9WgXcQ") (.error ()) =
      ⟨lc "Unknown Title", [], lc "Unknown", watchUrl (lc "dQw4w9WgXcQ")⟩ :=
  (get_video_metadata_failure (lc "dQw4w9WgXcQ") (.error ())).1 rfl

/-- C8 counterexample: on a page without an og:title tag but with a title
element, the title computation of transcript.py keeps the default while the
claimed three-step chain (followed by app.py) yields the element text with
the YouTube suffix stripped. -/
theorem title_fallback_divergence :
    computeTitle_t ⟨none, some (lc "My Video - YouTube"), none, []⟩ = lc "Unknown Title"
    ∧ computeTitle ⟨none, some (lc "My Video - YouTube"), none, []⟩ = lc "My Video" := by
  decide

/-- C8 amended: app.py computes the title by the three-step chain, where an
og:title tag without content yields the default and the title-element step
removes every occurrence of the YouTube suffix and strips whitespace;
transcript.py consults only og:title and otherwise keeps the default. -/
theorem compute_title_spec (page : Page) :
    (∀ c, page.ogTitle = some (some c) → computeTitle page = c ∧ computeTitle_t page = c)
    ∧ (page.ogTitle = some none →
        computeTitle page = lc "Unknown Title" ∧ computeTitle_t page = lc "Unknown Title")
    ∧ (∀ t, page.ogTitle = none → page.titleText = some t →
        computeTitle page = pyStrip (replaceDrop (lc " - YouTube") t))
    ∧ (page.ogTitle = none → page.titleText = none → computeTitle page = lc "Unknown Title")
    ∧ (page.ogTitle = none → computeTitle_t page = lc "Unknown Title") := by
  obtain ⟨og, tt, od, ld⟩ := page
  refine ⟨?_, ?_, ?_, ?_, ?_⟩
  · intro c hc
    cases hc
    exact ⟨rfl, rfl⟩
  · intro h
    cases h
    exact ⟨rfl, rfl⟩
  · intro t h1 h2
    cases h1
    cases h2
    rfl
  · intro h1 h2
    cases h1
    cases h2
    rfl
  · intro h1
    cases h1
    rfl

/-- C8 witness: the title-element step of the chain at a concrete page. -/
theorem compute_title_spec_witness :
    computeTitle ⟨none, some (lc "A - YouTube"), none, []⟩ =
      pyStrip (replaceDrop (lc " - YouTube") (lc "A - YouTube")) :=
  (compute_title_spec ⟨none, some (lc "A - YouTube"), none, []⟩).2.2.1 (lc "A - YouTube") rfl rfl

/-- C9: the batch endpoint validates before any per-URL processing: with the
rate limit passed, an empty urls array and an array of six urls are both
rejected with the 400-class validation messages of the code, independently
of the per-URL processing function. -/
theorem get_batch_transcripts_validation {α : Type} (process : List Char → α)
    (urls : List (List Char)) :
    (urls.length = 6 →
      get_batch_transcripts process true (some (some urls)) =
        .invalid (lc "Batch size limited to 5 URLs"))
    ∧ get_batch_transcripts process true (some (some ([] : List (List Char)))) =
        .invalid (lc "URLs must be a non-empty array") := by
  constructor
  · intro h
    simp [get_batch_transcripts, h]
  · simp [get_batch_transcripts]

/-- C9 witness: a six-element batch is rejected. -/
theorem get_batch_transcripts_validation_witness :
    get_batch_transcripts (fun _ => ()) true
        (some (some [lc "a", lc "b", lc "c", lc "d", lc "e", lc "f"])) =
      .invalid (lc "Batch size limited to 5 URLs") :=
  (get_batch_transcripts_validation (fun _ => ())
    [lc "a", lc "b", lc "c", lc "d", lc "e", lc "f"]).1 rfl
